import Mathlib

/- Shallow embedding of the finance-bot query pipeline.

   Source: app.py (get_query_params, execute_query) and ui.py (the chat-turn
   wiring around execute_query).  A pandas DataFrame of transactions is
   modelled as a list of records and dataframe boolean-mask filtering becomes
   List.filter.  pandas str.contains with case=False, na=False and the default
   regex=True is modelled by an explicit matcher for the regex fragment
   language actually generated by the code: literal characters, the dot
   wildcard, and the alternation introduced by joining the search terms with
   the bar character; richer metacharacters of Python's re module are outside
   the model.  Transaction dates are day numbers (Int): pandas timestamps form
   a totally ordered type and the code only compares them.  Amounts are Int.
   The external language-model call and the json.loads library routine are
   environment, not repository code, and enter the planner model as
   parameters. -/

namespace FinanceBot

/-- One row of the customer ledger handed to execute_query (the dataframe is
already filtered to one customer, so the cif column is irrelevant here).
Free-text columns are Option String: pandas NaN is modelled as none. -/
structure Record where
  trx_date : Int
  category_by_system : Int
  subheader : Option String
  detail_information : Option String
  notes : Option String
  amount : Int
  debit_credit : String
deriving Repr, DecidableEq

/-- The filter-specification dict produced by get_query_params.  Every field
that the executor reads through params.get is an Option: none models an
absent key (or JSON null).  The category field only ever appears in the
fail-open default dict. -/
structure Params where
  operation : String
  category : Option String
  category_id : Option Int
  search_terms : Option (List String)
  start_date : Option Int
  end_date : Option Int
deriving Repr, DecidableEq

/-- A sampled record projected to the reduced column set of app.py line 123
(selected_columns: trx_date, subheader, detail_information, notes, amount,
debit_credit). -/
structure SampleRecord where
  trx_date : Int
  subheader : Option String
  detail_information : Option String
  notes : Option String
  amount : Int
  debit_credit : String
deriving Repr, DecidableEq

/-- Projection of a ledger row to the reduced column set. -/
def toSample (r : Record) : SampleRecord :=
  { trx_date := r.trx_date, subheader := r.subheader,
    detail_information := r.detail_information, notes := r.notes,
    amount := r.amount, debit_credit := r.debit_credit }

/-- The result dict returned by execute_query (app.py lines 131-137). -/
structure QueryResult where
  user_name : String
  user_lang : String
  total_spend : Int
  transaction_count : Nat
  transaction_data : List SampleRecord
deriving Repr, DecidableEq

/-- Category stage, app.py lines 104-105.  Python evaluates
params.get("category_id") for truthiness, so the filter runs only when the
key is present with a nonzero integer; an absent key, a JSON null, or the
integer 0 skip the stage. -/
def categoryStage (p : Params) (l : List Record) : List Record :=
  match p.category_id with
  | some cid => if cid ≠ 0 then l.filter (fun r => r.category_by_system == cid) else l
  | none => l

/-- Date stage, app.py lines 107-108: runs only when both bounds are truthy
(the schema makes them non-empty date strings, so present means truthy), and
keeps rows with start_date <= trx_date <= end_date, both ends inclusive. -/
def dateStage (p : Params) (l : List Record) : List Record :=
  match p.start_date, p.end_date with
  | some s, some e => l.filter (fun r => s ≤ r.trx_date && r.trx_date ≤ e)
  | _, _ => l

/-- Matching of one alternation-free regex fragment against a prefix of the
text: a literal character matches case-insensitively (case=False) and the dot
metacharacter matches any character.  This is the semantics re gives a
fragment containing no metacharacter other than the dot; fragments using
further metacharacters are outside this total model and are fenced off by
reCompile below, which refuses to produce a mask for them. -/
def fragMatchAt : List Char → List Char → Bool
  | [], _ => true
  | _ :: _, [] => false
  | c :: fs, x :: xs => (c == '.' || c.toLower == x.toLower) && fragMatchAt fs xs

/-- Regex search of one fragment: the fragment may match starting at any
position of the text (re.search semantics used by pandas str.contains). -/
def fragSearch (frag : List Char) : List Char → Bool
  | [] => fragMatchAt frag []
  | x :: xs => fragMatchAt frag (x :: xs) || fragSearch frag xs

/-- Splitting a pattern at every bar character, mirroring how the regex
engine reads the alternation that the join on line 111 builds. -/
def splitBar : List Char → List (List Char)
  | [] => [[]]
  | c :: rest =>
    if c = '|' then [] :: splitBar rest
    else
      match splitBar rest with
      | f :: fs => (c :: f) :: fs
      | [] => [[c]]

/-- The join of app.py line 111: pattern = terms joined by the bar
character. -/
def joinBar : List (List Char) → List Char
  | [] => []
  | [t] => t
  | t :: ts => t ++ '|' :: joinBar ts

/-- pandas Series.str.contains(pattern, case=False, na=False) on one cell:
a missing cell never matches (na=False); otherwise the pattern, read as an
alternation of fragments, must occur somewhere in the text.  This total
function gives the semantics re assigns to patterns of the fragment
language (literals, dots, bars); on other patterns str.contains may raise
or apply richer regex features, which the boundary-aware reCompile,
textStageE and execute_queryE below account for. -/
def strContains (pattern : List Char) : Option String → Bool
  | none => false
  | some s => (splitBar pattern).any (fun frag => fragSearch frag s.toList)

/-- Text stage, app.py lines 110-116: runs only when params.get gives a
truthy (present, non-empty) list of search terms; the terms are joined into
one pattern and a row is kept when its subheader or its notes cell
matches. -/
def textStage (p : Params) (l : List Record) : List Record :=
  match p.search_terms with
  | none => l
  | some ts =>
    if ts.isEmpty then l
    else
      let pattern := joinBar (ts.map String.toList)
      l.filter (fun r => strContains pattern r.subheader || strContains pattern r.notes)

/-- The executor, app.py lines 98-137.  df.copy() makes the whole body act on
a copy of the stored ledger, which the pure embedding reflects by never
touching df.  Note on lines 126-128 of the source: when more than 10 rows
remain, recent_transactions is first assigned the head(10) projection, but
the very next statement unconditionally reassigns the full projection, so
the returned sample is always the whole sorted list; the embedding keeps
that net effect. -/
def execute_query (user_name user_lang : String) (df : List Record) (params : Params) : QueryResult :=
  let relevant_df := df
  let relevant_df := categoryStage params relevant_df
  let relevant_df := dateStage params relevant_df
  let relevant_df := textStage params relevant_df
  let relevant_df := List.insertionSort (fun a b => b.trx_date ≤ a.trx_date) relevant_df
  let relevant_data_amount := relevant_df.length
  let recent_transactions := relevant_df.map toSample
  { user_name := user_name, user_lang := user_lang,
    total_spend := (relevant_df.map Record.amount).sum,
    transaction_count := relevant_data_amount,
    transaction_data := recent_transactions }

/-- The fail-open default dict of get_query_params:
operation "list", category "all", and no other key. -/
def defaultParams : Params :=
  { operation := "list", category := some "all", category_id := none,
    search_terms := none, start_date := none, end_date := none }

/-- Cleaning of the collaborator response, app.py line 82: strip markdown
code fences and surrounding whitespace. -/
def cleanResponse (response : String) : String :=
  ((response.replace "```json" "").replace "```" "").trim

/-- The planner, app.py lines 80-95.  The language-model call may raise (its
outcome is an Except: error models any exception inside the try block before
cleaning) and json.loads is the library JSON reader, modelled as a parameter
returning Except (error models json.JSONDecodeError).  Every failure path
returns the fail-open default dict. -/
def get_query_params (invokeResult : Except String String)
    (jsonLoads : String → Except String Params) : Params :=
  match invokeResult with
  | .error _ => defaultParams
  | .ok response =>
    let clean_json := cleanResponse response
    if clean_json = "" then defaultParams
    else
      match jsonLoads clean_json with
      | .ok parsed => parsed
      | .error _ => defaultParams

/-- Session state of ui.py relevant to one executor turn: the verified
customer name, language, and the customer's ledger stored in
st.session_state. -/
structure SessionState where
  user_name : String
  user_lang : String
  user_df : List Record
deriving Repr, DecidableEq

/-- One executor turn as wired in ui.py line 102: execute_query is called on
the stored ledger and ui.py never writes user_df back, while execute_query
itself works on a copy, so the stored state after the turn is the state
before it. -/
def runExecutorTurn (st : SessionState) (p : Params) : QueryResult × SessionState :=
  (execute_query st.user_name st.user_lang st.user_df p, st)

/-- Per-record form of the category stage condition. -/
def categoryPred (p : Params) (r : Record) : Bool :=
  match p.category_id with
  | some cid => if cid ≠ 0 then r.category_by_system == cid else true
  | none => true

/-- Per-record form of the date stage condition. -/
def datePred (p : Params) (r : Record) : Bool :=
  match p.start_date, p.end_date with
  | some s, some e => s ≤ r.trx_date && r.trx_date ≤ e
  | _, _ => true

/-- Per-record form of the text stage condition. -/
def textPred (p : Params) (r : Record) : Bool :=
  match p.search_terms with
  | none => true
  | some ts =>
    if ts.isEmpty then true
    else
      let pattern := joinBar (ts.map String.toList)
      strContains pattern r.subheader || strContains pattern r.notes

/-- The filter predicate of the whole pipeline: a record matches the spec
when it passes all three stage conditions. -/
def matchesSpec (p : Params) (r : Record) : Bool :=
  categoryPred p r && datePred p r && textPred p r

/-- Substring occurrence check used to state the specification's reading of
the text search (spec 4.4 item 3): the needle occurs contiguously somewhere
in the haystack. -/
def containsSub (needle : List Char) : List Char → Bool
  | [] => needle.isEmpty
  | x :: xs => needle.isPrefixOf (x :: xs) || containsSub needle xs

/-- Specification-side text match for one term and one cell: case-insensitive
substring occurrence, with a missing cell never matching.  This definition
follows the specification's words and is compared against the code-derived
textStage. -/
def specTermOccursCI (term : String) : Option String → Bool
  | none => false
  | some s => containsSub (term.toList.map Char.toLower) (s.toList.map Char.toLower)

/-- Metacharacters of Python's re syntax.  Of these, only the dot and the
bar belong to the fragment language modelled by fragMatchAt and splitBar;
a pattern using any other one is outside the total model above and is
handled by the boundary-aware definitions below. -/
def regexMetachars : List Char :=
  ['.', '^', '$', '*', '+', '?', '\x7b', '\x7d', '[', ']', '\\', '|', '(', ')']

/-- A pattern lies in the modelled fragment language when its only
metacharacters are dots and bars: such a pattern compiles under re to an
alternation of fixed-length fragments, exactly what splitBar and fragSearch
compute. -/
def patternInModel (pattern : List Char) : Bool :=
  pattern.all (fun c => !(regexMetachars.contains c) || c == '.' || c == '|')

/-- Scan of a pattern's parentheses keeping the open depth: re rejects any
pattern whose parentheses are unbalanced (a closing one at depth zero or an
opening one never closed), and this scan returns false exactly then. -/
def parenScan : List Char → Nat → Bool
  | [], depth => depth == 0
  | c :: rest, depth =>
    if c = '(' then parenScan rest (depth + 1)
    else if c = ')' then
      match depth with
      | 0 => false
      | d + 1 => parenScan rest d
    else parenScan rest depth

/-- How this embedding accounts for str.contains not producing a boolean
mask in the modelled fragment language.  raised: Python's re engine rejects
the pattern and re.error propagates out of str.contains (the case of
unbalanced parentheses).  unmodelled: the embedding does not determine the
engine's behaviour on this pattern (a metacharacter beyond dot and bar with
balanced parentheses); no theorem in this development draws any conclusion
from this constructor. -/
inductive ReFailure where
  | raised
  | unmodelled
deriving Repr, DecidableEq

/-- Compilation of the joined pattern against Python's re engine.  A
pattern inside the fragment language compiles to its bar-split alternation
fragments.  Outside it, a pattern with unbalanced parentheses is one re
verifiably rejects, so str.contains raises; any other out-of-fragment
pattern is left unclassified. -/
def reCompile (pattern : List Char) : Except ReFailure (List (List Char)) :=
  if patternInModel pattern then .ok (splitBar pattern)
  else if parenScan pattern 0 then .error .unmodelled
  else .error .raised

/-- Mask of one cell against compiled alternation fragments: a missing cell
never matches (na=False), a present one matches when some fragment occurs
in it. -/
def maskContains (frags : List (List Char)) : Option String → Bool
  | none => false
  | some s => frags.any (fun frag => fragSearch frag s.toList)

/-- Text stage with the regex-compilation boundary made explicit: the stage
either produces the filtered rows (pattern compiled to fragments) or
propagates the failure of str.contains on the joined pattern.  On the
fragment language it agrees with textStage. -/
def textStageE (p : Params) (l : List Record) : Except ReFailure (List Record) :=
  match p.search_terms with
  | none => .ok l
  | some ts =>
    if ts.isEmpty then .ok l
    else
      match reCompile (joinBar (ts.map String.toList)) with
      | .error f => .error f
      | .ok frags =>
        .ok (l.filter (fun r => maskContains frags r.subheader || maskContains frags r.notes))

/-- The executor with the regex-compilation boundary made explicit: a
failure raised inside the text stage propagates out of execute_query (the
source has no handler around it), otherwise the result is built exactly as
in execute_query. -/
def execute_queryE (user_name user_lang : String) (df : List Record) (params : Params) :
    Except ReFailure QueryResult :=
  match textStageE params (dateStage params (categoryStage params df)) with
  | .error f => .error f
  | .ok relevant_df =>
    let relevant_df := List.insertionSort (fun a b => b.trx_date ≤ a.trx_date) relevant_df
    .ok { user_name := user_name, user_lang := user_lang,
          total_spend := (relevant_df.map Record.amount).sum,
          transaction_count := relevant_df.length,
          transaction_data := relevant_df.map toSample }

/-- A specification stays inside the modelled fragment language when it
either triggers no text stage at all or joins its terms into an in-model
pattern. -/
def specInModel (p : Params) : Bool :=
  match p.search_terms with
  | none => true
  | some ts => ts.isEmpty || patternInModel (joinBar (ts.map String.toList))

/-- The category stage is the filter of its per-record condition. -/
theorem categoryStage_eq_filter (p : Params) (l : List Record) :
    categoryStage p l = l.filter (categoryPred p) := by
  cases hc : p.category_id with
  | none =>
    have hp : categoryPred p = fun _ => true := by funext r; simp [categoryPred, hc]
    simp [categoryStage, hc, hp]
  | some cid =>
    by_cases h : cid = 0
    · have hp : categoryPred p = fun _ => true := by funext r; simp [categoryPred, hc, h]
      simp [categoryStage, hc, h, hp]
    · have hp : categoryPred p = fun r => r.category_by_system == cid := by
        funext r; simp [categoryPred, hc, h]
      simp [categoryStage, hc, h, hp]

/-- The date stage is the filter of its per-record condition. -/
theorem dateStage_eq_filter (p : Params) (l : List Record) :
    dateStage p l = l.filter (datePred p) := by
  cases hs : p.start_date with
  | none =>
    have hp : datePred p = fun _ => true := by funext r; simp [datePred, hs]
    simp [dateStage, hs, hp]
  | some s =>
    cases he : p.end_date with
    | none =>
      have hp : datePred p = fun _ => true := by funext r; simp [datePred, hs, he]
      simp [dateStage, hs, he, hp]
    | some e =>
      have hp : datePred p = fun r => s ≤ r.trx_date && r.trx_date ≤ e := by
        funext r; simp [datePred, hs, he]
      simp [dateStage, hs, he, hp]

/-- The text stage is the filter of its per-record condition. -/
theorem textStage_eq_filter (p : Params) (l : List Record) :
    textStage p l = l.filter (textPred p) := by
  cases ht : p.search_terms with
  | none =>
    have hp : textPred p = fun _ => true := by funext r; simp [textPred, ht]
    simp [textStage, ht, hp]
  | some ts =>
    by_cases h : ts.isEmpty
    · have hp : textPred p = fun _ => true := by funext r; simp [textPred, ht, h]
      simp [textStage, ht, h, hp]
    · have hp : textPred p = fun r =>
          strContains (joinBar (List.map String.toList ts)) r.subheader ||
            strContains (joinBar (List.map String.toList ts)) r.notes := by
        funext r; simp [textPred, ht, h]
      simp [textStage, ht, h, hp]

/-- The three staged filters compose into one filter by the conjunction of
the per-record conditions. -/
theorem pipeline_eq_filter (p : Params) (df : List Record) :
    textStage p (dateStage p (categoryStage p df)) = df.filter (matchesSpec p) := by
  rw [categoryStage_eq_filter, dateStage_eq_filter, textStage_eq_filter,
      List.filter_filter, List.filter_filter]
  apply List.filter_congr
  intro r _
  simp only [matchesSpec]
  cases categoryPred p r <;> cases datePred p r <;> cases textPred p r <;> rfl

/-- The aggregate total of the executor is the sum of amounts over all
records matching the combined filter predicate. -/
theorem execute_query_total (n ℓ : String) (df : List Record) (p : Params) :
    (execute_query n ℓ df p).total_spend
      = ((df.filter (matchesSpec p)).map Record.amount).sum := by
  simp only [execute_query]
  rw [pipeline_eq_filter]
  exact ((List.perm_insertionSort _ _).map Record.amount).sum_eq

/-- The transaction count of the executor is the number of all records
matching the combined filter predicate. -/
theorem execute_query_count (n ℓ : String) (df : List Record) (p : Params) :
    (execute_query n ℓ df p).transaction_count = (df.filter (matchesSpec p)).length := by
  simp only [execute_query]
  rw [pipeline_eq_filter]
  exact (List.perm_insertionSort _ _).length_eq

/-- The fail-open default specification matches every record. -/
theorem matchesSpec_default : matchesSpec defaultParams = fun _ => true := rfl

/-- Splitting a pattern at bars never yields an empty fragment list. -/
theorem splitBar_ne_nil (l : List Char) : splitBar l ≠ [] := by
  induction l with
  | nil => simp [splitBar]
  | cons c rest ih =>
    simp only [splitBar]
    by_cases h : c = '|'
    · simp [h]
    · simp only [if_neg h]
      cases hs : splitBar rest with
      | nil => simp
      | cons f fs => simp

/-- Splitting distributes over a bar placed between two pattern pieces. -/
theorem splitBar_append (a b : List Char) :
    splitBar (a ++ '|' :: b) = splitBar a ++ splitBar b := by
  induction a with
  | nil => simp [splitBar]
  | cons c a ih =>
    by_cases h : c = '|'
    · simp [splitBar, h, ih]
    · simp only [List.cons_append, splitBar, if_neg h, List.append_eq]
      cases hs : splitBar a with
      | nil => exact absurd hs (splitBar_ne_nil a)
      | cons f fs => rw [ih, hs]; simp

/-- Splitting the joined pattern produces the concatenation of the splits of
the individual terms. -/
theorem splitBar_joinBar (ls : List (List Char)) (h : ls ≠ []) :
    splitBar (joinBar ls) = (ls.map splitBar).flatten := by
  induction ls with
  | nil => exact absurd rfl h
  | cons t ts ih =>
    cases ts with
    | nil => simp [joinBar]
    | cons t2 ts2 =>
      rw [show joinBar (t :: t2 :: ts2) = t ++ '|' :: joinBar (t2 :: ts2) from rfl,
          splitBar_append, ih (by simp)]
      simp

/-- A bar-free pattern piece splits into just itself. -/
theorem splitBar_no_bar (l : List Char) (h : '|' ∉ l) : splitBar l = [l] := by
  induction l with
  | nil => rfl
  | cons c rest ih =>
    have hc : c ≠ '|' := fun e => h (e ▸ List.mem_cons_self c rest)
    have hr : '|' ∉ rest := fun m => h (List.mem_cons_of_mem _ m)
    simp [splitBar, hc, ih hr]

/-- Flattening a list of singleton lists gives back the original list. -/
theorem flatten_map_singleton {α : Type} (ls : List α) :
    (ls.map (fun l => [l])).flatten = ls := by
  induction ls with
  | nil => rfl
  | cons t ts ih => simp [ih]

/-- On a dot-free fragment, anchored fragment matching is case-insensitive
prefix comparison. -/
theorem fragMatchAt_no_dot (frag : List Char) (h : '.' ∉ frag) (s : List Char) :
    fragMatchAt frag s = (frag.map Char.toLower).isPrefixOf (s.map Char.toLower) := by
  induction frag generalizing s with
  | nil => cases s <;> rfl
  | cons c fs ih =>
    cases s with
    | nil => rfl
    | cons x xs =>
      have hc : c ≠ '.' := fun e => h (e ▸ List.mem_cons_self c fs)
      have hfs : '.' ∉ fs := fun m => h (List.mem_cons_of_mem _ m)
      have hcb : (c == '.') = false := beq_eq_false_iff_ne.mpr hc
      simp [fragMatchAt, List.isPrefixOf, ih hfs, hcb]

/-- On a dot-free fragment, fragment search is case-insensitive substring
occurrence. -/
theorem fragSearch_no_dot (frag : List Char) (h : '.' ∉ frag) (s : List Char) :
    fragSearch frag s = containsSub (frag.map Char.toLower) (s.map Char.toLower) := by
  induction s with
  | nil => cases frag <;> rfl
  | cons x xs ih =>
    simp [fragSearch, containsSub, fragMatchAt_no_dot frag h, ih]

/-- Search with the empty fragment succeeds on every text. -/
theorem fragSearch_nil_frag (s : List Char) : fragSearch [] s = true := by
  cases s <;> rfl

/-- Any-over-a-list respects pointwise equality of the conditions on
members. -/
theorem any_congr_mem {α : Type} (l : List α) (p q : α → Bool)
    (h : ∀ a ∈ l, p a = q a) : l.any p = l.any q := by
  induction l with
  | nil => rfl
  | cons a as ih =>
    simp only [List.any_cons, h a (List.mem_cons_self a as),
      ih (fun a ha => h a (List.mem_cons_of_mem _ ha))]

/-- Any-over-a-mapped-list is the any of the composed condition. -/
theorem any_map_comp {α β : Type} (l : List α) (f : α → β) (p : β → Bool) :
    (l.map f).any p = l.any (fun a => p (f a)) := by
  induction l with
  | nil => rfl
  | cons a as ih => simp only [List.map_cons, List.any_cons, ih]

/-- Any-over-a-list distributes over a pointwise disjunction. -/
theorem any_or_split {α : Type} (l : List α) (p q : α → Bool) :
    l.any (fun a => p a || q a) = (l.any p || l.any q) := by
  induction l with
  | nil => rfl
  | cons a as ih =>
    simp only [List.any_cons, ih]
    cases p a <;> cases q a <;> cases as.any p <;> cases as.any q <;> rfl

/-- For terms free of the dot and bar metacharacters, the code's cell match
coincides with the specification's case-insensitive substring match over the
term list. -/
theorem strContains_clean (ts : List String) (hne : ts ≠ [])
    (hclean : ∀ t ∈ ts, ∀ c ∈ t.toList, c ≠ '.' ∧ c ≠ '|') (f : Option String) :
    strContains (joinBar (ts.map String.toList)) f
      = ts.any (fun t => specTermOccursCI t f) := by
  cases f with
  | none =>
    have : ∀ t ∈ ts, specTermOccursCI t none = false := fun t _ => rfl
    simp [strContains, any_congr_mem ts _ _ this]
  | some s =>
    have hmap : (ts.map String.toList) ≠ [] := by simpa using hne
    simp only [strContains]
    rw [splitBar_joinBar _ hmap]
    have h1 : (ts.map String.toList).map splitBar
        = (ts.map String.toList).map (fun l => [l]) := by
      apply List.map_congr_left
      intro l hl
      obtain ⟨t, ht, rfl⟩ := List.mem_map.1 hl
      exact splitBar_no_bar _ (fun m => (hclean t ht '|' m).2 rfl)
    rw [h1, flatten_map_singleton, any_map_comp]
    apply any_congr_mem
    intro t ht
    exact fragSearch_no_dot t.toList (fun m => (hclean t ht '.' m).1 rfl) s.toList

/-- Every character of a joined pattern is a separator bar or a character
of one of the joined pieces. -/
theorem mem_joinBar (ls : List (List Char)) (c : Char) (h : c ∈ joinBar ls) :
    c = '|' ∨ ∃ l ∈ ls, c ∈ l := by
  induction ls with
  | nil => simp [joinBar] at h
  | cons t ts ih =>
    cases ts with
    | nil => exact Or.inr ⟨t, by simp, by simpa [joinBar] using h⟩
    | cons t2 ts2 =>
      rw [show joinBar (t :: t2 :: ts2) = t ++ '|' :: joinBar (t2 :: ts2) from rfl] at h
      rcases List.mem_append.1 h with h1 | h2
      · exact Or.inr ⟨t, by simp, h1⟩
      · rcases List.mem_cons.1 h2 with rfl | h3
        · exact Or.inl rfl
        · rcases ih h3 with h4 | ⟨l, hl, hc⟩
          · exact Or.inl h4
          · exact Or.inr ⟨l, List.mem_cons_of_mem _ hl, hc⟩

/-- A specification whose terms are free of every regex metacharacter stays
inside the modelled fragment language. -/
theorem specInModel_of_clean (p : Params) (ts : List String)
    (hts : p.search_terms = some ts)
    (hclean : ∀ t ∈ ts, ∀ c ∈ t.toList, regexMetachars.contains c = false) :
    specInModel p = true := by
  simp only [specInModel, hts]
  cases hE : ts.isEmpty with
  | true => rfl
  | false =>
    rw [Bool.false_or]
    apply List.all_eq_true.2
    intro c hc
    rcases mem_joinBar _ c hc with rfl | ⟨l, hl, hcl⟩
    · decide
    · obtain ⟨t, ht, rfl⟩ := List.mem_map.1 hl
      have hm := hclean t ht c hcl
      have hnm : c ∉ regexMetachars := by simpa using hm
      simp [hnm]

/-- The compiled-fragment mask of a bar-split pattern is the total cell
match used by textStage. -/
theorem maskContains_splitBar (pattern : List Char) (f : Option String) :
    maskContains (splitBar pattern) f = strContains pattern f := by
  cases f <;> rfl

/-- Inside the modelled fragment language the boundary-aware text stage
raises nothing and returns exactly the total text stage's rows. -/
theorem textStageE_inModel (p : Params) (l : List Record)
    (hin : specInModel p = true) : textStageE p l = .ok (textStage p l) := by
  cases hts : p.search_terms with
  | none => simp [textStageE, textStage, hts]
  | some ts =>
    cases hE : ts.isEmpty with
    | true => simp [textStageE, textStage, hts, hE]
    | false =>
      have hpat : patternInModel (joinBar (ts.map String.toList)) = true := by
        have h := hin
        simp only [specInModel, hts, hE, Bool.false_or] at h
        exact h
      have h1 : textStageE p l = .ok (l.filter (fun r =>
          maskContains (splitBar (joinBar (ts.map String.toList))) r.subheader ||
          maskContains (splitBar (joinBar (ts.map String.toList))) r.notes)) := by
        simp [textStageE, hts, hE, reCompile, hpat]
      have h2 : textStage p l = l.filter (fun r =>
          strContains (joinBar (ts.map String.toList)) r.subheader ||
          strContains (joinBar (ts.map String.toList)) r.notes) := by
        simp [textStage, hts, hE]
      rw [h1, h2]
      have hfun : (fun r : Record =>
          maskContains (splitBar (joinBar (ts.map String.toList))) r.subheader ||
          maskContains (splitBar (joinBar (ts.map String.toList))) r.notes)
          = (fun r : Record =>
          strContains (joinBar (ts.map String.toList)) r.subheader ||
          strContains (joinBar (ts.map String.toList)) r.notes) := by
        funext r
        rw [maskContains_splitBar, maskContains_splitBar]
      rw [hfun]

/-- Inside the modelled fragment language the boundary-aware executor
raises nothing and returns exactly the total executor's result. -/
theorem execute_queryE_inModel (n ℓ : String) (df : List Record) (p : Params)
    (hin : specInModel p = true) :
    execute_queryE n ℓ df p = .ok (execute_query n ℓ df p) := by
  simp only [execute_queryE, textStageE_inModel _ _ hin]
  rfl

/-- Concrete ledger of eleven records that all match the unfiltered default
specification (dates 0..10, each of amount 1). -/
def elevenLedger : List Record :=
  (List.range 11).map (fun i =>
    { trx_date := (i : Int), category_by_system := 1, subheader := some "s",
      detail_information := none, notes := none, amount := 1, debit_credit := "D" })

/-- Concrete record with category identifier 5 and no free text. -/
def recCat5 : Record :=
  { trx_date := 1, category_by_system := 5, subheader := none,
    detail_information := none, notes := none, amount := 100, debit_credit := "D" }

/-- Concrete record with subheader "x" and no notes. -/
def recX : Record :=
  { trx_date := 1, category_by_system := 1, subheader := some "x",
    detail_information := none, notes := none, amount := 10, debit_credit := "D" }

/-- Concrete record with subheader "STARBUCKS" and no notes. -/
def recSB : Record :=
  { trx_date := 2, category_by_system := 2, subheader := some "STARBUCKS",
    detail_information := none, notes := none, amount := 55000, debit_credit := "D" }

/-- Concrete record dated day 7. -/
def recD7 : Record :=
  { trx_date := 7, category_by_system := 1, subheader := none,
    detail_information := none, notes := none, amount := 3, debit_credit := "C" }

/-- Specification asking for category 0 and nothing else. -/
def pCatZero : Params :=
  { operation := "sum", category := none, category_id := some 0,
    search_terms := none, start_date := none, end_date := none }

/-- Specification asking for category 3 and nothing else. -/
def pCat3 : Params :=
  { operation := "sum", category := none, category_id := some 3,
    search_terms := none, start_date := none, end_date := none }

/-- Specification asking for category 2 and nothing else. -/
def pCat2 : Params :=
  { operation := "sum", category := none, category_id := some 2,
    search_terms := none, start_date := none, end_date := none }

/-- Specification with no category key at all. -/
def pNoCat : Params :=
  { operation := "list", category := none, category_id := none,
    search_terms := none, start_date := none, end_date := none }

/-- Specification with the date window from day 5 to day 10. -/
def pDates : Params :=
  { operation := "list", category := none, category_id := none,
    search_terms := none, start_date := some 5, end_date := some 10 }

/-- Specification with an end date but no start date. -/
def pNoDates : Params :=
  { operation := "list", category := none, category_id := none,
    search_terms := none, start_date := none, end_date := some 10 }

/-- Specification whose only search term is the lone dot. -/
def pDot : Params :=
  { operation := "list", category := none, category_id := none,
    search_terms := some ["."], start_date := none, end_date := none }

/-- Specification whose only search term is "starbucks". -/
def pSB : Params :=
  { operation := "sum", category := none, category_id := none,
    search_terms := some ["starbucks"], start_date := none, end_date := none }

/-- Specification whose only search term is the empty string. -/
def pEmptyTerm : Params :=
  { operation := "list", category := none, category_id := none,
    search_terms := some [""], start_date := none, end_date := none }

/-- Concrete record with no text in either searchable field. -/
def recNull : Record :=
  { trx_date := 1, category_by_system := 1, subheader := none,
    detail_information := none, notes := none, amount := 5, debit_credit := "D" }

/-- Specification whose only search term is a lone opening parenthesis. -/
def pParen : Params :=
  { operation := "list", category := none, category_id := none,
    search_terms := some ["("], start_date := none, end_date := none }

/-- Specification whose search terms are the empty string and a lone
opening parenthesis. -/
def pEmptyParen : Params :=
  { operation := "list", category := none, category_id := none,
    search_terms := some ["", "("], start_date := none, end_date := none }

/-- C1: the claim says the sample length is min(N, 10); on the code the
head(10) truncation of app.py line 127 is unconditionally overwritten by
line 128, so for a ledger of 11 matching records the executor returns a
sample of all 11 records, not 10 — the count is 11 and the sample length is
11, which differs from min(11, 10). -/
theorem C1_sample_not_truncated :
    (execute_query "u" "en" elevenLedger defaultParams).transaction_count = 11 ∧
    (execute_query "u" "en" elevenLedger defaultParams).transaction_data.length = 11 ∧
    (execute_query "u" "en" elevenLedger defaultParams).transaction_data.length ≠
      min (execute_query "u" "en" elevenLedger defaultParams).transaction_count 10 := by
  decide

/-- C2: for every ledger and filter specification, the aggregate total
returned by the executor is the sum of the amount field over all records
satisfying the filter predicate — not only a sampled subset — and the
returned count is the number of all matching records. -/
theorem C2_aggregate_over_all_matches (n ℓ : String) (df : List Record) (p : Params) :
    (execute_query n ℓ df p).total_spend
      = ((df.filter (matchesSpec p)).map Record.amount).sum ∧
    (execute_query n ℓ df p).transaction_count = (df.filter (matchesSpec p)).length :=
  ⟨execute_query_total n ℓ df p, execute_query_count n ℓ df p⟩

/-- C3: whenever the collaborator call raises, returns empty cleaned text,
or returns text the JSON reader rejects, the planner returns exactly the
fail-open default specification, and executing that specification returns
the full ledger's aggregate: the sum of every amount and the count of every
record. -/
theorem C3_planner_fail_open (invokeResult : Except String String)
    (jsonLoads : String → Except String Params)
    (h : (∃ e, invokeResult = .error e) ∨
         (∃ resp, invokeResult = .ok resp ∧
            (cleanResponse resp = "" ∨ ∃ e, jsonLoads (cleanResponse resp) = .error e)))
    (n ℓ : String) (df : List Record) :
    get_query_params invokeResult jsonLoads = defaultParams ∧
    (execute_query n ℓ df (get_query_params invokeResult jsonLoads)).total_spend
      = (df.map Record.amount).sum ∧
    (execute_query n ℓ df (get_query_params invokeResult jsonLoads)).transaction_count
      = df.length := by
  have hdef : get_query_params invokeResult jsonLoads = defaultParams := by
    rcases h with ⟨e, he⟩ | ⟨resp, hok, hfail⟩
    · rw [he]; rfl
    · rw [hok]
      simp only [get_query_params]
      rcases hfail with hempty | ⟨e, he⟩
      · simp [hempty]
      · by_cases hc : cleanResponse resp = "" <;> simp [hc, he]
  refine ⟨hdef, ?_, ?_⟩
  · rw [hdef, execute_query_total, matchesSpec_default, List.filter_true]
  · rw [hdef, execute_query_count, matchesSpec_default, List.filter_true]

/-- C3 witness: a collaborator exception makes the planner return the
default specification, and executing it on a concrete one-record ledger
returns that ledger's full sum and count. -/
theorem C3_planner_fail_open_witness :
    get_query_params (Except.error "boom") (fun _ => Except.error "bad") = defaultParams ∧
    (execute_query "u" "en" [recCat5]
        (get_query_params (Except.error "boom") (fun _ => Except.error "bad"))).total_spend
      = ([recCat5].map Record.amount).sum ∧
    (execute_query "u" "en" [recCat5]
        (get_query_params (Except.error "boom") (fun _ => Except.error "bad"))).transaction_count
      = [recCat5].length :=
  C3_planner_fail_open (Except.error "boom") (fun _ => Except.error "bad")
    (Or.inl ⟨"boom", rfl⟩) "u" "en" [recCat5]

/-- C4 counterexample: the claim says a present category_id filters by exact
match, but with category_id present and equal to 0 the truthiness test of
app.py line 104 skips the stage, so a record of category 5 is kept. -/
theorem C4_counterexample :
    pCatZero.category_id = some 0 ∧
    recCat5.category_by_system ≠ 0 ∧
    categoryStage pCatZero [recCat5] = [recCat5] := by
  decide

/-- C4 (amended): when category_id is present and nonzero the category stage
keeps exactly the records whose category identifier equals it, and when
category_id is absent or equal to 0 every record passes the stage
unchanged. -/
theorem C4_category_stage_exact (p : Params) (l : List Record) :
    (∀ cid, p.category_id = some cid → cid ≠ 0 →
       categoryStage p l = l.filter (fun r => r.category_by_system == cid)) ∧
    ((p.category_id = none ∨ p.category_id = some 0) → categoryStage p l = l) := by
  constructor
  · intro cid hc h0
    simp [categoryStage, hc, h0]
  · rintro (hc | hc) <;> simp [categoryStage, hc]

/-- C4 witness: with category_id 3 the stage is the exact-match filter on a
concrete ledger, and with category_id absent the same ledger passes
unchanged. -/
theorem C4_category_stage_exact_witness :
    categoryStage pCat3 [recCat5] = [recCat5].filter (fun r => r.category_by_system == 3) ∧
    categoryStage pNoCat [recCat5] = [recCat5] :=
  ⟨(C4_category_stage_exact pCat3 [recCat5]).1 3 rfl (by decide),
   (C4_category_stage_exact pNoCat [recCat5]).2 (Or.inl rfl)⟩

/-- C5: the date stage runs exactly when both bounds are present, keeping a
record precisely when its date lies in the inclusive range (so a record
dated exactly on either bound is kept and one dated outside a bound is
excluded), and when either bound is absent every record passes
unchanged. -/
theorem C5_date_stage_inclusive (p : Params) (l : List Record) (r : Record) :
    (∀ s e, p.start_date = some s → p.end_date = some e →
      (r ∈ dateStage p l ↔ r ∈ l ∧ s ≤ r.trx_date ∧ r.trx_date ≤ e)) ∧
    ((p.start_date = none ∨ p.end_date = none) → dateStage p l = l) := by
  constructor
  · intro s e hs he
    simp [dateStage, hs, he, List.mem_filter, and_assoc]
  · rintro (h | h)
    · simp [dateStage, h]
    · cases hs : p.start_date <;> simp [dateStage, hs, h]

/-- C5 witness: with the window 5..10 a record dated 7 is kept on a concrete
ledger, and with the start date absent the ledger passes unchanged. -/
theorem C5_date_stage_inclusive_witness :
    (recD7 ∈ dateStage pDates [recD7] ↔
      recD7 ∈ [recD7] ∧ 5 ≤ recD7.trx_date ∧ recD7.trx_date ≤ 10) ∧
    dateStage pNoDates [recD7] = [recD7] :=
  ⟨(C5_date_stage_inclusive pDates [recD7] recD7).1 5 10 rfl rfl,
   (C5_date_stage_inclusive pNoDates [recD7] recD7).2 (Or.inl rfl)⟩

/-- C7 counterexample: the claim promises no error for every zero-match
specification, but with the single search term "(" the joined pattern is a
regex that re rejects, so str.contains raises and execute_query propagates
the error, even though zero records match — the only record has no text in
either searchable field. -/
theorem C7_counterexample :
    [recNull].filter (matchesSpec pParen) = [] ∧
    execute_queryE "u" "en" [recNull] pParen = .error ReFailure.raised :=
  ⟨by decide, rfl⟩

/-- C7 (amended): for every ledger and every specification that keeps the
text stage inside the modelled regex fragment (no search terms, or terms
joining into a pattern of literals, dots and bars), if zero records match
then the executor raises nothing and returns aggregate sum 0, count 0 and
an empty sample. -/
theorem C7_zero_matches (n ℓ : String) (df : List Record) (p : Params)
    (hin : specInModel p = true) (h : df.filter (matchesSpec p) = []) :
    execute_queryE n ℓ df p =
      .ok { user_name := n, user_lang := ℓ, total_spend := 0,
            transaction_count := 0, transaction_data := [] } := by
  rw [execute_queryE_inModel n ℓ df p hin]
  simp only [execute_query]
  rw [pipeline_eq_filter, h]
  rfl

/-- C7 witness: a one-record ledger of category 5 filtered by category 2
(no search terms, so in model) matches nothing, and the executor returns
sum 0, count 0 and an empty sample without raising. -/
theorem C7_zero_matches_witness :
    specInModel pCat2 = true ∧
    [recCat5].filter (matchesSpec pCat2) = [] ∧
    execute_queryE "u" "en" [recCat5] pCat2 =
      .ok { user_name := "u", user_lang := "en", total_spend := 0,
            transaction_count := 0, transaction_data := [] } :=
  ⟨rfl, by decide, C7_zero_matches "u" "en" [recCat5] pCat2 rfl (by decide)⟩

/-- C8: one executor turn of the interface is pure over the session state:
the stored ledger after the turn is unchanged (the executor works on a
copy), and repeating the turn on the resulting state yields the identical
result, aggregates and sampled ordering included. -/
theorem C8_executor_pure (st : SessionState) (p : Params) :
    (runExecutorTurn st p).2 = st ∧
    (runExecutorTurn ((runExecutorTurn st p).2) p).1 = (runExecutorTurn st p).1 :=
  ⟨rfl, rfl⟩

/-- C9: two specifications that differ only in the operation field produce
identical executor results: the operation value is never read by
execute_query. -/
theorem C9_operation_advisory (n ℓ : String) (df : List Record) (p : Params)
    (op1 op2 : String) :
    execute_query n ℓ df { p with operation := op1 }
      = execute_query n ℓ df { p with operation := op2 } := rfl

/-- C6 counterexample: the claim says a record is kept only when some term
occurs as a substring, but the code reads the joined terms as a regex, so
with the single term "." a record whose subheader is "x" is kept although
"." occurs as a substring of neither field. -/
theorem C6_counterexample :
    textStage pDot [recX] = [recX] ∧
    specTermOccursCI "." recX.subheader = false ∧
    specTermOccursCI "." recX.notes = false := by
  decide

/-- C6 (amended): for every non-empty search term list whose terms are free
of every regex metacharacter, the text stage raises nothing — the joined
pattern compiles inside the modelled fragment — and keeps a record exactly
when at least one term occurs case-insensitively as a substring of its
subheader or of its notes; a record whose subheader and notes are both
missing never matches. -/
theorem C6_text_stage_substring (p : Params) (l : List Record) (r : Record)
    (ts : List String) (hts : p.search_terms = some ts) (hne : ts ≠ [])
    (hclean : ∀ t ∈ ts, ∀ c ∈ t.toList, regexMetachars.contains c = false) :
    textStageE p l = .ok (textStage p l) ∧
    (r ∈ textStage p l ↔
      r ∈ l ∧ ts.any (fun t =>
        specTermOccursCI t r.subheader || specTermOccursCI t r.notes) = true) := by
  have hclean2 : ∀ t ∈ ts, ∀ c ∈ t.toList, c ≠ '.' ∧ c ≠ '|' := by
    intro t ht c hc
    have hm := hclean t ht c hc
    constructor <;> rintro rfl <;> exact absurd hm (by decide)
  refine ⟨textStageE_inModel p l (specInModel_of_clean p ts hts hclean), ?_⟩
  have hE : ts.isEmpty = false := by
    cases ts with
    | nil => exact absurd rfl hne
    | cons a as => rfl
  have hstep : textStage p l = l.filter (fun r =>
      strContains (joinBar (ts.map String.toList)) r.subheader ||
      strContains (joinBar (ts.map String.toList)) r.notes) := by
    simp [textStage, hts, hE]
  rw [hstep]
  simp only [List.mem_filter]
  rw [strContains_clean ts hne hclean2 r.subheader,
      strContains_clean ts hne hclean2 r.notes, ← any_or_split]

/-- C6 witness: the metacharacter-free term "starbucks" raises nothing and
keeps a concrete record whose subheader is "STARBUCKS", matching the
case-insensitive substring reading. -/
theorem C6_text_stage_substring_witness :
    pSB.search_terms = some ["starbucks"] ∧
    (textStageE pSB [recSB] = .ok (textStage pSB [recSB]) ∧
     (recSB ∈ textStage pSB [recSB] ↔
       recSB ∈ [recSB] ∧ (["starbucks"].any (fun t =>
         specTermOccursCI t recSB.subheader || specTermOccursCI t recSB.notes)) = true)) :=
  ⟨rfl, C6_text_stage_substring pSB [recSB] recSB ["starbucks"] rfl (by decide) (by decide)⟩

/-- C10 counterexample: the term list containing the empty string next to a
lone opening parenthesis joins into a pattern that re rejects, so instead of
matching the record with a present subheader the executor raises — the
claim's conclusion fails although its hypothesis (the list contains the
empty string) holds. -/
theorem C10_counterexample :
    "" ∈ ["", "("] ∧
    recX.subheader.isSome = true ∧
    execute_queryE "u" "en" [recX] pEmptyParen = .error ReFailure.raised :=
  ⟨by decide, rfl, rfl⟩

/-- C10 (amended): when the search term list contains the empty string and
the specification stays inside the modelled regex fragment (the joined
pattern compiles), the text stage raises nothing and keeps exactly the
records that have a present subheader or present notes: the empty term
matches every present text cell, and records missing both cells are
filtered out by the na=False reading of missing text. -/
theorem C10_empty_term_matches_all (p : Params) (l : List Record) (r : Record)
    (ts : List String) (hts : p.search_terms = some ts) (hmem : "" ∈ ts)
    (hin : specInModel p = true) :
    textStageE p l = .ok (textStage p l) ∧
    (r ∈ textStage p l ↔ r ∈ l ∧ (r.subheader.isSome || r.notes.isSome) = true) := by
  refine ⟨textStageE_inModel p l hin, ?_⟩
  have hne : ts ≠ [] := by rintro rfl; simp at hmem
  have hE : ts.isEmpty = false := by
    cases ts with
    | nil => exact absurd rfl hne
    | cons a as => rfl
  have hstep : textStage p l = l.filter (fun r =>
      strContains (joinBar (ts.map String.toList)) r.subheader ||
      strContains (joinBar (ts.map String.toList)) r.notes) := by
    simp [textStage, hts, hE]
  have hpat : [] ∈ splitBar (joinBar (ts.map String.toList)) := by
    rw [splitBar_joinBar _ (by simpa using hne), List.mem_flatten]
    refine ⟨[[]], ?_, by simp⟩
    have h0 : ([] : List Char) ∈ ts.map String.toList :=
      List.mem_map.2 ⟨"", hmem, rfl⟩
    have h1 : splitBar ([] : List Char) ∈ (ts.map String.toList).map splitBar :=
      List.mem_map.2 ⟨([] : List Char), h0, rfl⟩
    simpa [splitBar] using h1
  have hcell : ∀ f : Option String,
      strContains (joinBar (ts.map String.toList)) f = f.isSome := by
    intro f
    cases f with
    | none => rfl
    | some s =>
      simp only [strContains, Option.isSome]
      exact List.any_eq_true.2 ⟨[], hpat, fragSearch_nil_frag s.toList⟩
  rw [hstep]
  simp only [List.mem_filter]
  rw [hcell r.subheader, hcell r.notes]

/-- C10 witness: with the single term "" (an in-model pattern) the stage
raises nothing, a concrete record that has a subheader is kept, and the
characterization holds at that input. -/
theorem C10_empty_term_matches_all_witness :
    pEmptyTerm.search_terms = some [""] ∧ specInModel pEmptyTerm = true ∧
    (textStageE pEmptyTerm [recX] = .ok (textStage pEmptyTerm [recX]) ∧
     (recX ∈ textStage pEmptyTerm [recX] ↔
       recX ∈ [recX] ∧ (recX.subheader.isSome || recX.notes.isSome) = true)) :=
  ⟨rfl, rfl, C10_empty_term_matches_all pEmptyTerm [recX] recX [""] rfl (by decide) rfl⟩

end FinanceBot
